import Mathlib

/-!
Verification of the TASE repository's graph-document synchronization layer.

This file gives a shallow embedding, in Lean, of the parts of the repository
relevant to the claims about it:

* the attribute-dictionary handling of `BaseCollectionDocument`
  (`src/tase/db/arangodb/base/base_collection_document.py`),
* the legacy `BaseVertex` / `BaseEdge` models
  (`src/tase/db/graph_models/vertices/base_vertex.py`,
  `src/tase/db/graph_models/edges/base_edge.py`),
* the hashtag edge reconciliation
  (`AudioMethods._update_connected_hashtags` in
  `src/tase/db/arangodb/graph/vertices/audio.py`),
* the thumbnail edge reconciliation
  (`ThumbnailMethods.update_connected_thumbnails` in
  `src/tase/db/arangodb/graph/vertices/thumbnail.py`),
* the bulk document replacement request of the vendored `aioarango` client
  (`src/aioarango/api_methods/documents/replace_multiple_documents.py`),
* the Elasticsearch `Audio` document model
  (`src/tase/db/elasticsearchdb/models/audio.py`).

Python dictionaries over string keys are embedded as association lists with
first-match lookup; assignment replaces an existing binding in place and
appends a fresh binding at the end, exactly as insertion order is kept by
Python dictionaries.  Python sets of strings are embedded as duplicate-free
lists built with `List.insert`; all claims about them are stated through
membership, which is insensitive to iteration order.  Awaited database calls
are passed in as oracle functions, and Python exceptions are embedded with
`Except` or an explicit success flag.
-/

namespace Tase

/-- Embedded value domain for attribute dictionaries: the scalar values the
models put into a document dictionary (strings, integers, booleans and
`None`).  Enum values are represented by their underlying scalar, which is
what `ToGraphEnumConverter` produces for the database. -/
inductive GVal where
  | null : GVal
  | str (s : String) : GVal
  | num (n : Int) : GVal
  | boolean (b : Bool) : GVal
deriving DecidableEq, Repr

/-- `None`-or-string turned into a dictionary value, as pydantic's `dict()`
renders an `Optional[str]` field. -/
def optStr : Option String → GVal
  | none => GVal.null
  | some s => GVal.str s

/-- Python truthiness of an embedded value: `None`, `""`, `0` and `False` are
falsy, everything else is truthy. -/
def GVal.truthy : GVal → Bool
  | GVal.null => false
  | GVal.str s => !s.isEmpty
  | GVal.num n => decide (n ≠ 0)
  | GVal.boolean b => b

/-- A Python attribute dictionary: an association list from attribute names to
values, looked up first-match. -/
abbrev PyDict (α : Type) := List (String × α)

/-- `d.get(k, None)` / `d[k]`: first binding of `k`, if any. -/
def dlookup (k : String) : PyDict α → Option α
  | [] => none
  | p :: rest => if p.1 = k then some p.2 else dlookup k rest

/-- `del d[k]` (on a dictionary, which holds each key at most once; on a
general association list this removes every binding of `k`). -/
def derase (k : String) : PyDict α → PyDict α
  | [] => []
  | p :: rest => if p.1 = k then derase k rest else p :: derase k rest

/-- Replace every binding of `k` by `v`, keeping positions. -/
def dreplace (k : String) (v : α) : PyDict α → PyDict α
  | [] => []
  | p :: rest => (if p.1 = k then (k, v) else p) :: dreplace k v rest

/-- `d[k] = v`: update the binding in place when the key is present, append a
new binding at the end otherwise — Python dictionary assignment. -/
def dset (k : String) (v : α) (l : PyDict α) : PyDict α :=
  if (dlookup k l).isSome then dreplace k v l else l ++ [(k, v)]

theorem dlookup_append (k : String) (l₁ l₂ : PyDict α) :
    dlookup k (l₁ ++ l₂) = ((dlookup k l₁).orElse fun _ => dlookup k l₂) := by
  induction l₁ with
  | nil => simp [dlookup, Option.orElse]
  | cons p rest ih =>
    by_cases h : p.1 = k <;> simp [dlookup, h, ih, Option.orElse]

theorem dlookup_dreplace_self (k : String) (v : α) (l : PyDict α) :
    dlookup k (dreplace k v l) = ((dlookup k l).map fun _ => v) := by
  induction l with
  | nil => simp [dlookup, dreplace]
  | cons p rest ih =>
    by_cases h : p.1 = k <;> simp [dlookup, dreplace, h, ih]

theorem dlookup_dreplace_ne (k k' : String) (v : α) (l : PyDict α)
    (h : k' ≠ k) : dlookup k' (dreplace k v l) = dlookup k' l := by
  induction l with
  | nil => simp [dreplace]
  | cons p rest ih =>
    by_cases hp : p.1 = k
    · simp [dreplace, hp, dlookup, Ne.symm h, ih]
    · by_cases hp' : p.1 = k' <;> simp [dreplace, hp, dlookup, hp', ih, h]

theorem dlookup_dset_self (k : String) (v : α) (l : PyDict α) :
    dlookup k (dset k v l) = some v := by
  unfold dset
  by_cases h : (dlookup k l).isSome
  · rcases Option.isSome_iff_exists.mp h with ⟨w, hw⟩
    simp [h, dlookup_dreplace_self, hw]
  · have hnone : dlookup k l = none := by
      cases hx : dlookup k l
      · rfl
      · exact absurd (by simp [hx]) h
    simp [h, dlookup_append, hnone, Option.orElse, dlookup]

theorem dlookup_dset_ne (k k' : String) (v : α) (l : PyDict α) (h : k' ≠ k) :
    dlookup k' (dset k v l) = dlookup k' l := by
  unfold dset
  by_cases hs : (dlookup k l).isSome
  · simp [hs, dlookup_dreplace_ne _ _ _ _ h]
  · simp [hs, dlookup_append, dlookup, h, Ne.symm h]

theorem dlookup_derase_self (k : String) (l : PyDict α) :
    dlookup k (derase k l) = none := by
  induction l with
  | nil => rfl
  | cons p rest ih =>
    by_cases h : p.1 = k <;> simp [derase, h, dlookup, ih]

theorem dlookup_derase_ne (k k' : String) (l : PyDict α) (h : k' ≠ k) :
    dlookup k' (derase k l) = dlookup k' l := by
  induction l with
  | nil => rfl
  | cons p rest ih =>
    by_cases hp : p.1 = k
    · simp [derase, hp, dlookup, ih, Ne.symm h]
    · by_cases hp' : p.1 = k' <;> simp [derase, hp, dlookup, hp', ih, h]

/-! ### The Elasticsearch and ArangoDB `Audio` field inventories (claim C6)

Transcribed from the pydantic field declarations on the class bodies of
`Audio` in `src/tase/db/elasticsearchdb/models/audio.py` and of `Audio` in
`src/tase/db/arangodb/graph/vertices/audio.py`. -/

/-- Fields declared on the Elasticsearch `Audio` document model. -/
def elasticsearchAudioFields : List String :=
  ["chat_id", "message_id", "message_caption", "message_date",
   "file_unique_id", "duration", "performer", "title", "file_name",
   "mime_type", "file_size", "date",
   "views", "downloads", "shares", "search_hits", "non_search_hits",
   "likes", "dislikes",
   "audio_type", "valid_for_inline_search"]

/-- Fields declared on the ArangoDB `Audio` vertex model. -/
def arangoAudioFields : List String :=
  ["chat_id", "message_id", "message_caption", "raw_message_caption",
   "message_date", "message_edit_date", "views", "forward_date",
   "forward_from_user_id", "forward_from_chat_id", "forward_from_message_id",
   "forward_signature", "forward_sender_name", "via_bot",
   "has_protected_content", "file_unique_id", "duration", "performer",
   "raw_performer", "title", "raw_title", "file_name", "raw_file_name",
   "mime_type", "file_size", "date", "audio_type", "valid_for_inline_search",
   "estimated_bit_rate_type", "has_checked_forwarded_message",
   "has_checked_forwarded_message_at", "type", "archive_message_id",
   "is_forwarded", "is_deleted", "deleted_at", "is_edited"]

/-- The per-audio interaction counters that exist only on the Elasticsearch
side. -/
def elasticsearchOnlyCounterFields : List String :=
  ["downloads", "shares", "search_hits", "non_search_hits", "likes",
   "dislikes"]

/-! ### The Elasticsearch `Audio.get_query` class method (claim C10)

Transcribed from `Audio.get_query` in
`src/tase/db/elasticsearchdb/models/audio.py`.  The two branches of the
`if valid_for_inline_search:` conditional are transcribed separately, as they
are written separately in the source. -/

/-- Nested JSON-like value for Elasticsearch query bodies. -/
inductive QVal where
  | str (s : String) : QVal
  | strOpt (s : Option String) : QVal
  | strList (l : List String) : QVal
  | dict (d : List (String × QVal)) : QVal

/-- `Audio._search_fields`. -/
def audioSearchFields : List String :=
  ["performer", "title", "file_name", "message_caption"]

/-- Truthiness of an `Optional[bool]` argument: `None` and `False` are falsy. -/
def optBoolTruthy : Option Bool → Bool
  | none => false
  | some b => b

/-- `Audio.get_query(query, valid_for_inline_search)`.  Both branches of the
source conditional are reproduced verbatim. -/
def audioGetQuery (query : Option String) (valid_for_inline_search : Option Bool) :
    Option (List (String × QVal)) :=
  if optBoolTruthy valid_for_inline_search then
    some
      [("bool", QVal.dict
        [("must", QVal.dict
          [("multi_match", QVal.dict
            [("query", QVal.strOpt query),
             ("fuzziness", QVal.str "AUTO"),
             ("type", QVal.str "best_fields"),
             ("minimum_should_match", QVal.str "65%"),
             ("fields", QVal.strList audioSearchFields)])]),
         ("filter", QVal.dict
          [("exists", QVal.dict [("field", QVal.str "title")])])])]
  else
    some
      [("bool", QVal.dict
        [("must", QVal.dict
          [("multi_match", QVal.dict
            [("query", QVal.strOpt query),
             ("fuzziness", QVal.str "AUTO"),
             ("type", QVal.str "best_fields"),
             ("minimum_should_match", QVal.str "65%"),
             ("fields", QVal.strList audioSearchFields)])]),
         ("filter", QVal.dict
          [("exists", QVal.dict [("field", QVal.str "title")])])])]

/-! ### `replace_multiple_documents` of the vendored aioarango client (claim C4)

Transcribed from
`src/aioarango/api_methods/documents/replace_multiple_documents.py`. -/

/-- The error classes a per-document error can be classified into by the
response handler. -/
inductive BulkReplaceError where
  | documentIllegal : BulkReplaceError
  | documentNotFound : BulkReplaceError
  | documentIllegalKey : BulkReplaceError
  | documentUniqueConstraint : BulkReplaceError
  | documentRevisionMisMatch : BulkReplaceError
  | documentInsert : BulkReplaceError
deriving DecidableEq, Repr

/-- The if/elif chain of `response_handler` classifying a per-document server
error code. -/
def classifyBulkReplaceErrorCode (error_code : Int) : BulkReplaceError :=
  if error_code = 600 then BulkReplaceError.documentIllegal
  else if error_code = 1202 then BulkReplaceError.documentNotFound
  else if error_code = 1221 then BulkReplaceError.documentIllegalKey
  else if error_code = 1210 then BulkReplaceError.documentUniqueConstraint
  else if error_code = 1200 then BulkReplaceError.documentRevisionMisMatch
  else BulkReplaceError.documentInsert

/-- The request parameter dictionary built by `replace_multiple_documents`. -/
def replaceMultipleDocumentsParams (check_for_revisions_match return_new return_old silent : Bool)
    (wait_for_sync : Option Bool) : PyDict GVal :=
  let params : PyDict GVal :=
    [("returnNew", GVal.boolean return_new),
     ("returnOld", GVal.boolean return_old),
     ("ignoreRevs", GVal.boolean (!check_for_revisions_match)),
     ("silent", GVal.boolean silent)]
  match wait_for_sync with
  | some w => dset "waitForSync" (GVal.boolean w) params
  | none => params

/-- One entry of the response body array: either a document result (a
dictionary that contains an `_id` attribute) or a per-document error with its
server error code, as extracted by `prep_bulk_err_response`. -/
inductive BulkReplaceItem where
  | document (body : PyDict GVal) : BulkReplaceItem
  | err (error_code : Int) : BulkReplaceItem

/-- The `_oldRev` → `_old_rev` renaming performed on document results. -/
def renameOldRev (body : PyDict GVal) : PyDict GVal :=
  match dlookup "_oldRev" body with
  | some v => dset "_old_rev" v (derase "_oldRev" body)
  | none => body

/-- The per-item branch of `response_handler` (in the non-silent case):
document results are kept (with `_oldRev` renamed), error entries are turned
into classified error objects. -/
def bulkReplaceResponseHandlerItem : BulkReplaceItem → PyDict GVal ⊕ BulkReplaceError
  | BulkReplaceItem.document body => Sum.inl (renameOldRev body)
  | BulkReplaceItem.err code => Sum.inr (classifyBulkReplaceErrorCode code)

/-- `response_handler` over a whole (successful, non-silent) response body. -/
def bulkReplaceResponseHandler (body : List BulkReplaceItem) :
    List (PyDict GVal ⊕ BulkReplaceError) :=
  body.map bulkReplaceResponseHandlerItem

/-! ### `BaseCollectionDocument` (claims C3, C5, C7, C8)

Transcribed from `src/tase/db/arangodb/base/base_collection_document.py`.
A document is embedded as its typed base fields (`schema_version`, `id`,
`key`, `rev`, `created_at`, `modified_at`) together with the subclass's extra
pydantic fields as an attribute dictionary. -/

structure CollectionDoc where
  schema_version : Int
  id : Option String
  key : Option String
  rev : Option String
  created_at : Int
  modified_at : Int
  attrs : PyDict GVal
deriving DecidableEq, Repr

/-- Construction of a document without explicit metadata: pydantic fills
`created_at` and `modified_at` from `Field(default_factory=get_timestamp)`,
and `id`/`key`/`rev` default to `None`.  `now` is the value `get_timestamp`
returns at construction time. -/
def CollectionDoc.make (now : Int) (key : Option String) (attrs : PyDict GVal) :
    CollectionDoc :=
  { schema_version := 1
    id := none
    key := key
    rev := none
    created_at := now
    modified_at := now
    attrs := attrs }

/-- `self.dict()`: the pydantic field dictionary, base fields in declaration
order followed by the subclass fields. -/
def CollectionDoc.pydanticDict (d : CollectionDoc) : PyDict GVal :=
  [("schema_version", GVal.num d.schema_version),
   ("id", optStr d.id),
   ("key", optStr d.key),
   ("rev", optStr d.rev),
   ("created_at", GVal.num d.created_at),
   ("modified_at", GVal.num d.modified_at)] ++ d.attrs

/-- One step of `ToGraphAttributeMapper.process`: for a pair
`(obj_attr, graph_doc_attr)` of `_to_graph_db_mapping`, move the value when it
is not `None`, otherwise store `None` under the database name; the object
name is deleted either way. -/
def toGraphAttributeMapperStep (dict : PyDict GVal) (obj_attr graph_doc_attr : String) :
    PyDict GVal :=
  match dlookup obj_attr dict with
  | some v =>
    if v ≠ GVal.null then dset graph_doc_attr v (derase obj_attr dict)
    else dset graph_doc_attr GVal.null (derase obj_attr dict)
  | none => dset graph_doc_attr GVal.null (derase obj_attr dict)

/-- `_to_graph_db_mapping`. -/
def toGraphDbMapping : List (String × String) :=
  [("id", "_id"), ("key", "_key"), ("rev", "_rev")]

/-- `ToGraphAttributeMapper.process` over the whole mapping.
(`ToGraphEnumConverter` is the identity here because the embedded value domain
already holds enum members as their scalar values.) -/
def toGraphAttributeMapper (dict : PyDict GVal) : PyDict GVal :=
  toGraphDbMapping.foldl (fun acc p => toGraphAttributeMapperStep acc p.1 p.2) dict

/-- `BaseCollectionDocument.to_graph`. -/
def CollectionDoc.to_graph (d : CollectionDoc) : PyDict GVal :=
  toGraphAttributeMapper d.pydanticDict

/-- One step of `FromGraphAttributeMapper.process`: for a pair
`(graph_doc_attr, obj_attr)` of `_from_graph_db_mapping`, move the value when
it is not `None` (deleting the database name), otherwise only store `None`
under the object name. -/
def fromGraphAttributeMapperStep (dict : PyDict GVal) (graph_doc_attr obj_attr : String) :
    PyDict GVal :=
  match dlookup graph_doc_attr dict with
  | some v =>
    if v ≠ GVal.null then dset obj_attr v (derase graph_doc_attr dict)
    else dset obj_attr GVal.null dict
  | none => dset obj_attr GVal.null dict

/-- `_from_graph_db_mapping`. -/
def fromGraphDbMapping : List (String × String) :=
  [("_id", "id"), ("_key", "key"), ("_rev", "rev")]

/-- `FromGraphAttributeMapper.process` over the whole mapping. -/
def fromGraphAttributeMapper (dict : PyDict GVal) : PyDict GVal :=
  fromGraphDbMapping.foldl (fun acc p => fromGraphAttributeMapperStep acc p.1 p.2) dict

/-- `BaseCollectionDocument.from_graph`.  `construct` is the pydantic
constructor `cls(**doc)`: it returns `none` exactly when construction raises
(`ValidationError` or any other exception), which the source catches, logs and
turns into a `None` return. -/
def fromGraph (construct : PyDict GVal → Option CollectionDoc)
    (doc : Option (PyDict GVal)) : Option CollectionDoc :=
  match doc with
  | none => none
  | some dict =>
    if dict.length = 0 then none
    else construct (fromGraphAttributeMapper dict)

/-- `_update_metadata`: set `id`, `key` and `rev` from the metadata returned
by the database (absent keys give `None`, as `metadata.get(k, None)` does). -/
def CollectionDoc.updateMetadata (d : CollectionDoc) (metadata : PyDict String) :
    CollectionDoc :=
  { d with
    id := dlookup "_id" metadata
    key := dlookup "_key" metadata
    rev := dlookup "_rev" metadata }

/-- `_update_metadata_from_old_document`: copy `id`, `key` and `rev` from the
old document. -/
def CollectionDoc.updateMetadataFromOldDocument (d old_doc : CollectionDoc) :
    CollectionDoc :=
  { d with id := old_doc.id, key := old_doc.key, rev := old_doc.rev }

/-- `getattr(old_doc, field_name, None)` for the embedded document: typed base
fields are read directly, any other name is read from the attribute
dictionary (`None`, i.e. `GVal.null`, when absent — pydantic fields that were
never set do not exist as attributes). -/
def CollectionDoc.getField (d : CollectionDoc) (field_name : String) : GVal :=
  if field_name = "schema_version" then GVal.num d.schema_version
  else if field_name = "id" then optStr d.id
  else if field_name = "key" then optStr d.key
  else if field_name = "rev" then optStr d.rev
  else if field_name = "created_at" then GVal.num d.created_at
  else if field_name = "modified_at" then GVal.num d.modified_at
  else ((dlookup field_name d.attrs).getD GVal.null)

/-- `setattr(self, field_name, v)` for the embedded document. -/
def CollectionDoc.setField (d : CollectionDoc) (field_name : String) (v : GVal) :
    CollectionDoc :=
  if field_name = "schema_version" then
    { d with schema_version := match v with | GVal.num n => n | _ => d.schema_version }
  else if field_name = "id" then
    { d with id := match v with | GVal.str s => some s | _ => none }
  else if field_name = "key" then
    { d with key := match v with | GVal.str s => some s | _ => none }
  else if field_name = "rev" then
    { d with rev := match v with | GVal.str s => some s | _ => none }
  else if field_name = "created_at" then
    { d with created_at := match v with | GVal.num n => n | _ => d.created_at }
  else if field_name = "modified_at" then
    { d with modified_at := match v with | GVal.num n => n | _ => d.modified_at }
  else { d with attrs := dset field_name v d.attrs }

/-- `_base_do_not_update_fields`. -/
def baseDoNotUpdateFields : List String := ["created_at"]

/-- `Audio._extra_do_not_update_fields` on the ArangoDB `Audio` vertex. -/
def audioExtraDoNotUpdateFields : List String :=
  ["has_checked_forwarded_message_at", "deleted_at"]

/-- `_update_non_updatable_fields`: copy every field of
`_base_do_not_update_fields` and of the class's `_extra_do_not_update_fields`
from the old document onto `self`.  `created_at` is copied as the typed base
field it is; extra fields are copied through `getattr`/`setattr`. -/
def CollectionDoc.updateNonUpdatableFields (d : CollectionDoc)
    (extra_do_not_update_fields : List String) (old_doc : CollectionDoc) :
    CollectionDoc :=
  let d₁ := { d with created_at := old_doc.created_at }
  extra_do_not_update_fields.foldl
    (fun acc f => acc.setField f (old_doc.getField f)) d₁

/-- Outcome of a call to the underlying database client: the returned
metadata dictionary, or a raised exception. -/
abbrev DbResult := Except Unit (PyDict String)

/-- `BaseCollectionDocument.create`.  `insertDb` is the database client call
`cls._collection.insert`; the source wraps it in a `try` whose handlers catch
`DocumentInsertError` and any other `Exception`, log, and fall through to
`return doc, successful`. -/
def collectionCreate (insertDb : PyDict GVal → DbResult)
    (doc : Option CollectionDoc) : Option CollectionDoc × Bool :=
  match doc with
  | none => (none, false)
  | some d =>
    match insertDb d.to_graph with
    | Except.ok metadata => (some (d.updateMetadata metadata), true)
    | Except.error _ => (some d, false)

/-- The document `BaseCollectionDocument.update` hands to the database client:
`doc._update_metadata_from_old_document(old_doc)._update_non_updatable_fields(old_doc)`. -/
def updatePayloadDoc (extra_do_not_update_fields : List String)
    (old_doc doc : CollectionDoc) : CollectionDoc :=
  (doc.updateMetadataFromOldDocument old_doc).updateNonUpdatableFields
    extra_do_not_update_fields old_doc

/-- `BaseCollectionDocument.update` (for arguments that are instances of
`BaseCollectionDocument`, past the `isinstance` guard).  `updateDb` is the
database client call `cls._collection.update`; the source catches
`DocumentUpdateError`, `DocumentRevisionError` and any other `Exception`,
logs, and falls through to `return doc, successful`. -/
def collectionUpdate (updateDb : PyDict GVal → DbResult)
    (extra_do_not_update_fields : List String)
    (old_doc doc : Option CollectionDoc) : Option CollectionDoc × Bool :=
  match old_doc, doc with
  | some o, some d =>
    let d₁ := updatePayloadDoc extra_do_not_update_fields o d
    match updateDb d₁.to_graph with
    | Except.ok metadata => (some (d₁.updateMetadata metadata), true)
    | Except.error _ => (some d₁, false)
  | _, _ => (none, false)

/-- `BaseCollectionDocument.find_by_key`.  `find` is the cursor produced by
`cls._collection.find` with the key filter, embedded as the list of matching
raw documents; `cursor.pop()` takes the first batch item. -/
def findByKey (construct : PyDict GVal → Option CollectionDoc)
    (find : String → List (PyDict GVal)) (key : Option String) :
    Option CollectionDoc :=
  match key with
  | none => none
  | some k =>
    match find k with
    | [] => none
    | g :: _ => fromGraph construct (some g)

/-! ### The legacy `BaseVertex` and `BaseEdge` graph models (claim C5)

Transcribed from `src/tase/db/graph_models/vertices/base_vertex.py` and
`src/tase/db/graph_models/edges/base_edge.py`.  Unlike
`BaseCollectionDocument`, their `_to_graph` tests the metadata values for
truthiness (`if temp_dict.get(k, None):`) rather than against `None`. -/

structure GraphModelVertex where
  id : Option String
  key : Option String
  rev : Option String
  created_at : Int
  modified_at : Int
  attrs : PyDict GVal
deriving DecidableEq, Repr

/-- Construction with defaulted audit fields, as in `CollectionDoc.make`. -/
def GraphModelVertex.make (now : Int) (key : Option String) (attrs : PyDict GVal) :
    GraphModelVertex :=
  { id := none, key := key, rev := none, created_at := now, modified_at := now,
    attrs := attrs }

def GraphModelVertex.pydanticDict (v : GraphModelVertex) : PyDict GVal :=
  [("id", optStr v.id),
   ("key", optStr v.key),
   ("rev", optStr v.rev),
   ("created_at", GVal.num v.created_at),
   ("modified_at", GVal.num v.modified_at)] ++ v.attrs

/-- One step of `BaseVertex._to_graph`'s mapping loop: move the value when it
is truthy, otherwise store `None` under the database name; the object name is
deleted either way. -/
def graphModelToGraphStep (dict : PyDict GVal) (obj_attr graph_attr : String) :
    PyDict GVal :=
  match dlookup obj_attr dict with
  | some v =>
    if v.truthy then dset graph_attr v (derase obj_attr dict)
    else dset graph_attr GVal.null (derase obj_attr dict)
  | none => dset graph_attr GVal.null (derase obj_attr dict)

/-- `BaseVertex._to_graph`, also `BaseVertex.parse_for_graph`. -/
def GraphModelVertex.parse_for_graph (v : GraphModelVertex) : PyDict GVal :=
  toGraphDbMapping.foldl (fun acc p => graphModelToGraphStep acc p.1 p.2)
    v.pydanticDict

structure GraphModelEdge where
  id : Option String
  key : Option String
  rev : Option String
  from_node : GraphModelVertex
  to_node : GraphModelVertex
  created_at : Int
  modified_at : Int
  attrs : PyDict GVal
deriving DecidableEq, Repr

def GraphModelEdge.make (now : Int) (key : Option String)
    (from_node to_node : GraphModelVertex) (attrs : PyDict GVal) :
    GraphModelEdge :=
  { id := none, key := key, rev := none, from_node := from_node,
    to_node := to_node, created_at := now, modified_at := now, attrs := attrs }

/-- `BaseEdge._to_graph`, also `BaseEdge.parse_for_graph`.  The `id`/`key`/
`rev` mapping loop is as for vertices; the relation mapping loop replaces
`from_node`/`to_node` by `_from`/`_to` holding the nested vertex's `id`.  In
`self.dict()` the required `from_node`/`to_node` fields render as non-empty
dictionaries, which are always truthy, so the loop always takes the
`temp_dict[v] = temp_dict[k]['id']` branch. -/
def GraphModelEdge.parse_for_graph (e : GraphModelEdge) : PyDict GVal :=
  let base : PyDict GVal :=
    [("id", optStr e.id),
     ("key", optStr e.key),
     ("rev", optStr e.rev),
     ("created_at", GVal.num e.created_at),
     ("modified_at", GVal.num e.modified_at)] ++ e.attrs
  let mapped := toGraphDbMapping.foldl
    (fun acc p => graphModelToGraphStep acc p.1 p.2) base
  dset "_to" (optStr e.to_node.id)
    (dset "_from" (optStr e.from_node.id) mapped)

/-! ### `AudioMethods._update_connected_hashtags` (claims C1, C9)

Transcribed from `src/tase/db/arangodb/graph/vertices/audio.py`.  Hashtag and
edge vertices are identified by their keys.  `Hashtag.parse_key` and
`HasHashtag.parse_has_hashtag_key` live outside the provided sources and are
taken as abstract key functions; the awaited database calls
`get_or_create_hashtag` and `HasHashtag.get_or_create_edge` are oracle
parameters.  The function's effect is its emitted trace of graph operations
together with a flag that is `false` exactly when the body raises. -/

/-- `MentionSource` members used by `Audio.find_hashtags`. -/
inductive MentionSource where
  | messageText : MentionSource
  | audioTitle : MentionSource
  | audioPerformer : MentionSource
  | audioFileName : MentionSource
  | documentFileName : MentionSource
deriving DecidableEq, Repr

/-- Database operations the reconciliation can perform on the graph.  The
vertex API also offers deletion (`BaseVertex.delete`), so vertex deletion is
representable in the trace; claim C9 is that the reconciliation never emits
it. -/
inductive GraphOp where
  | deleteHasHashtagEdge (edgeKey : String) : GraphOp
  | deleteHashtagVertex (vertexKey : String) : GraphOp
  | getOrCreateHashtagVertex (hashtagString : String) : GraphOp
  | createHasHashtagEdge (edgeKey vertexKey : String) (mentionSource : MentionSource)
      (startIndex : Nat) : GraphOp
deriving DecidableEq, Repr

/-- State built by the `for hashtag_string, start_index, mention_source in
hashtags` loop: the sets `new_vertices` and `new_edges` and the dictionaries
`new_vertices_mapping` and `new_edges_mapping`. -/
structure NewHashtagState where
  newVertices : List String
  newEdges : List String
  newVerticesMapping : String → Option String
  newEdgesMapping : String → Option (String × Nat × MentionSource)

/-- One iteration of the loop: compute the hashtag key and edge key, add them
to the sets and record them in the mappings (later iterations overwrite). -/
def newHashtagStep (parseHashtagKey : String → String)
    (parseHasHashtagKey : String → String → MentionSource → Nat → String)
    (audioKey : String) (st : NewHashtagState)
    (hashtag : String × Nat × MentionSource) : NewHashtagState :=
  let hashtagKey := parseHashtagKey hashtag.1
  let edgeKey := parseHasHashtagKey audioKey hashtagKey hashtag.2.2 hashtag.2.1
  { newVertices := st.newVertices.insert hashtagKey
    newEdges := st.newEdges.insert edgeKey
    newVerticesMapping := fun q =>
      if q = hashtagKey then some hashtag.1 else st.newVerticesMapping q
    newEdgesMapping := fun q =>
      if q = edgeKey then some (hashtagKey, hashtag.2.1, hashtag.2.2)
      else st.newEdgesMapping q }

/-- The whole loop over the result of `audio.find_hashtags()`. -/
def newHashtagFold (parseHashtagKey : String → String)
    (parseHasHashtagKey : String → String → MentionSource → Nat → String)
    (audioKey : String) (hashtags : List (String × Nat × MentionSource)) :
    NewHashtagState :=
  hashtags.foldl (newHashtagStep parseHashtagKey parseHasHashtagKey audioKey)
    ⟨[], [], fun _ => none, fun _ => none⟩

/-- The current-state sets, read off the pairs returned by
`get_audio_hashtags_with_edges` (a hashtag key and an edge key per pair). -/
def currentVertexKeys (current : List (String × String)) : List String :=
  current.foldl (fun s p => s.insert p.1) []

def currentEdgeKeys (current : List (String × String)) : List String :=
  current.foldl (fun s p => s.insert p.2) []

/-- `current_vertices_mapping`: each hashtag vertex under its own key.  The
vertex object is represented by its key. -/
def currentVerticesMapping (current : List (String × String)) :
    String → Option String :=
  current.foldl (fun m p q => if q = p.1 then some p.1 else m q) (fun _ => none)

/-- `current_edges_mapping`: each edge under its own key.  The edge object is
represented by its key. -/
def currentEdgesMapping (current : List (String × String)) :
    String → Option String :=
  current.foldl (fun m p q => if q = p.2 then some p.2 else m q) (fun _ => none)

/-- The desired edge-key set computed from the hashtags found in the audio's
text attributes. -/
def desiredEdgeKeys (parseHashtagKey : String → String)
    (parseHasHashtagKey : String → String → MentionSource → Nat → String)
    (audioKey : String) (hashtags : List (String × Nat × MentionSource)) :
    List String :=
  (newHashtagFold parseHashtagKey parseHasHashtagKey audioKey hashtags).newEdges

/-- The `for edge_key in removed_edges` loop: look each key up in
`current_edges_mapping` (a `KeyError` on a missing key would raise, flag
`false`) and delete the edge; a failed delete only logs. -/
def deleteRemovedEdges (edgesMapping : String → Option String) :
    List String → List GraphOp × Bool
  | [] => ([], true)
  | k :: rest =>
    match edgesMapping k with
    | some edge =>
      let r := deleteRemovedEdges edgesMapping rest
      (GraphOp.deleteHasHashtagEdge edge :: r.1, r.2)
    | none => ([], false)

/-- The `for hashtag_key in to_create_vertices` loop: when the recorded
hashtag string is truthy, call `get_or_create_hashtag` and, when it returns a
vertex, record it in `current_vertices_mapping`.  `createVertex` returns the
created vertex's key, or `none` when the call produced no vertex. -/
def createNewHashtagVertices (createVertex : String → Option String)
    (verticesMapping : String → Option String) :
    List String → (String → Option String) → List GraphOp × (String → Option String)
  | [], acc => ([], acc)
  | hk :: rest, acc =>
    match verticesMapping hk with
    | some s =>
      if s = "" then createNewHashtagVertices createVertex verticesMapping rest acc
      else
        match createVertex s with
        | some vertexKey =>
          let r := createNewHashtagVertices createVertex verticesMapping rest
            (fun q => if q = hk then some vertexKey else acc q)
          (GraphOp.getOrCreateHashtagVertex s :: r.1, r.2)
        | none =>
          let r := createNewHashtagVertices createVertex verticesMapping rest acc
          (GraphOp.getOrCreateHashtagVertex s :: r.1, r.2)
    | none => createNewHashtagVertices createVertex verticesMapping rest acc

/-- The `for edge_key in to_create_edges` loop: read the recorded
`(hashtag_key, start_index, mention_source)` (a missing key would be a
`KeyError`), fetch the vertex from `current_vertices_mapping` (skip silently
when absent), and call `HasHashtag.get_or_create_edge`; a `None` edge raises
`EdgeCreationFailed`, which aborts the loop with flag `false`.  `createEdge`
says whether the call returns an edge. -/
def createNewHasHashtagEdges (createEdge : String → MentionSource → Nat → Bool)
    (edgesMapping : String → Option (String × Nat × MentionSource))
    (verticesMapping : String → Option String)
    (parseHasHashtagKey : String → String → MentionSource → Nat → String)
    (audioKey : String) : List String → List GraphOp × Bool
  | [] => ([], true)
  | k :: rest =>
    match edgesMapping k with
    | none => ([], false)
    | some (hashtagKey, startIndex, mentionSource) =>
      match verticesMapping hashtagKey with
      | none =>
        createNewHasHashtagEdges createEdge edgesMapping verticesMapping
          parseHasHashtagKey audioKey rest
      | some vertexKey =>
        if createEdge vertexKey mentionSource startIndex then
          let r := createNewHasHashtagEdges createEdge edgesMapping verticesMapping
            parseHasHashtagKey audioKey rest
          (GraphOp.createHasHashtagEdge
            (parseHasHashtagKey audioKey vertexKey mentionSource startIndex)
            vertexKey mentionSource startIndex :: r.1, r.2)
        else ([], false)

/-- `AudioMethods._update_connected_hashtags`, from the point where
`audio.find_hashtags()` has returned `hashtags` and
`get_audio_hashtags_with_edges` has returned `current`: diff the current and
desired vertex/edge key sets, delete the removed edges, create the new
hashtag vertices and create the new edges. -/
def updateConnectedHashtags (parseHashtagKey : String → String)
    (parseHasHashtagKey : String → String → MentionSource → Nat → String)
    (createVertex : String → Option String)
    (createEdge : String → MentionSource → Nat → Bool)
    (audioKey : String) (current : List (String × String))
    (hashtags : List (String × Nat × MentionSource)) : List GraphOp × Bool :=
  let current_vertices := currentVertexKeys current
  let current_edges := currentEdgeKeys current
  let current_vertices_mapping := currentVerticesMapping current
  let current_edges_mapping := currentEdgesMapping current
  let st := newHashtagFold parseHashtagKey parseHasHashtagKey audioKey hashtags
  -- since a hashtag vertex might be connected to other audio vertices, the
  -- source computes but never uses `removed_vertices`
  let _removed_vertices := current_vertices.filter fun k => decide (k ∉ st.newVertices)
  let removed_edges := current_edges.filter fun k => decide (k ∉ st.newEdges)
  let to_create_vertices := st.newVertices.filter fun k => decide (k ∉ current_vertices)
  let to_create_edges := st.newEdges.filter fun k => decide (k ∉ current_edges)
  let del := deleteRemovedEdges current_edges_mapping removed_edges
  if del.2 then
    let ver := createNewHashtagVertices createVertex st.newVerticesMapping
      to_create_vertices current_vertices_mapping
    let edg := createNewHasHashtagEdges createEdge st.newEdgesMapping ver.2
      parseHasHashtagKey audioKey to_create_edges
    (del.1 ++ ver.1 ++ edg.1, edg.2)
  else (del.1, false)

/-! ### `ThumbnailMethods.update_connected_thumbnails` (claim C2)

Transcribed from `src/tase/db/arangodb/graph/vertices/thumbnail.py`.  The
source computes

  `current_edges = {edge.key for _, edge, in current_vertices}`

iterating over `current_vertices` — the set of thumbnail key *strings* just
built — instead of over `current_thumbnails_and_edges`.  Unpacking a string
into `_, edge` succeeds only for strings of length two (a string is a sequence
of one-character strings), raising `ValueError` otherwise, and then
`edge.key` raises `AttributeError` because `str` has no attribute `key`.  So
the comprehension raises on the first element whenever the set is non-empty. -/

/-- Exceptions the thumbnail reconciliation can raise. -/
inductive PyraisedError where
  | valueErrorUnpack : PyraisedError
  | attributeErrorStrKey : PyraisedError
  | keyError : PyraisedError
  | edgeCreationFailed : PyraisedError
deriving DecidableEq, Repr

/-- Graph operations of the thumbnail reconciliation. -/
inductive ThumbOp where
  | deleteHasEdge (edgeKey : String) : ThumbOp
  | createHasEdge (thumbnailKey : String) : ThumbOp
deriving DecidableEq, Repr

/-- The buggy comprehension `{edge.key for _, edge, in current_vertices}`:
on a non-empty set of key strings the first element either fails to unpack
(`ValueError`) or, for a two-character key, yields a one-character string
whose `key` attribute does not exist (`AttributeError`). -/
def buggyCurrentEdgesComprehension : List String → Except PyraisedError (List String)
  | [] => Except.ok []
  | s :: _ =>
    Except.error
      (if s.length = 2 then PyraisedError.attributeErrorStrKey
       else PyraisedError.valueErrorUnpack)

/-- The `for edge_key in removed_edges` loop of the thumbnail reconciliation:
a missing mapping key would be a `KeyError`; a failed delete only logs. -/
def deleteRemovedThumbnailEdges (edgesMapping : String → Option String) :
    List String → Except PyraisedError (List ThumbOp)
  | [] => Except.ok []
  | k :: rest =>
    match edgesMapping k with
    | some edge =>
      (deleteRemovedThumbnailEdges edgesMapping rest).map
        (fun ops => ThumbOp.deleteHasEdge edge :: ops)
    | none => Except.error PyraisedError.keyError

/-- The `for edge_key in to_create_edges` loop: `new_edges_mapping[edge_key]`
raises `KeyError` when absent; a falsy result of `Has.get_or_create_edge`
raises `EdgeCreationFailed`. -/
def createNewThumbnailEdges (createEdge : String → Bool)
    (edgesMapping : String → Option String) :
    List String → Except PyraisedError (List ThumbOp)
  | [] => Except.ok []
  | k :: rest =>
    match edgesMapping k with
    | none => Except.error PyraisedError.keyError
    | some thumbnailKey =>
      if createEdge thumbnailKey then
        (createNewThumbnailEdges createEdge edgesMapping rest).map
          (fun ops => ThumbOp.createHasEdge thumbnailKey :: ops)
      else Except.error PyraisedError.edgeCreationFailed

/-- State built by the `for new_thumbnail in thumbnails` loop. -/
structure NewThumbnailState where
  newVertices : List String
  newEdges : List String
  newEdgesMapping : String → Option String

/-- `ThumbnailMethods.update_connected_thumbnails`, from the point where
`get_audio_thumbnails_with_edges` has returned `current` (thumbnail key and
edge key per pair) and the new thumbnails are given by their keys.
`hasParseKey` abstracts `Has.parse_key(source_vertex, new_thumbnail)`;
`createEdge` abstracts `Has.get_or_create_edge`. -/
def updateConnectedThumbnails (hasParseKey : String → String → String)
    (createEdge : String → Bool) (audioKey : String)
    (current : List (String × String)) (thumbnails : List String) :
    Except PyraisedError (List ThumbOp) :=
  let current_vertices := currentVertexKeys current
  match buggyCurrentEdgesComprehension current_vertices with
  | Except.error e => Except.error e
  | Except.ok current_edges =>
    let current_edges_mapping := currentEdgesMapping current
    let st : NewThumbnailState := thumbnails.foldl
      (fun st tk =>
        let edgeKey := hasParseKey audioKey tk
        { newVertices := st.newVertices.insert tk
          newEdges := st.newEdges.insert edgeKey
          newEdgesMapping := fun q =>
            if q = edgeKey then some tk else st.newEdgesMapping q })
      ⟨[], [], fun _ => none⟩
    let removed_edges := current_edges.filter fun k => decide (k ∉ st.newEdges)
    let to_create_edges := st.newEdges.filter fun k => decide (k ∉ current_edges)
    match deleteRemovedThumbnailEdges current_edges_mapping removed_edges with
    | Except.error e => Except.error e
    | Except.ok delOps =>
      -- create new thumbnail vertices: the source skips this part, the
      -- thumbnail vertices are already stored in the database
      match createNewThumbnailEdges createEdge st.newEdgesMapping to_create_edges with
      | Except.error e => Except.error e
      | Except.ok creOps => Except.ok (delOps ++ creOps)

/-! ### Lookup lemmas for the attribute-mapper steps -/

theorem toGraphStep_lookup_other (dict : PyDict GVal) (oa ga k : String)
    (h1 : k ≠ ga) (h2 : k ≠ oa) :
    dlookup k (toGraphAttributeMapperStep dict oa ga) = dlookup k dict := by
  unfold toGraphAttributeMapperStep
  cases hv : dlookup oa dict with
  | none => rw [dlookup_dset_ne _ _ _ _ h1, dlookup_derase_ne _ _ _ h2]
  | some v =>
    by_cases hnull : v = GVal.null <;>
      simp [hnull, dlookup_dset_ne _ _ _ _ h1, dlookup_derase_ne _ _ _ h2]

theorem toGraphStep_lookup_target (dict : PyDict GVal) (oa ga : String) :
    dlookup ga (toGraphAttributeMapperStep dict oa ga) =
      some (match dlookup oa dict with
            | some v => if v = GVal.null then GVal.null else v
            | none => GVal.null) := by
  unfold toGraphAttributeMapperStep
  cases hv : dlookup oa dict with
  | none => simp [dlookup_dset_self]
  | some v => by_cases hnull : v = GVal.null <;> simp [hnull, dlookup_dset_self]

theorem graphModelStep_lookup_other (dict : PyDict GVal) (oa ga k : String)
    (h1 : k ≠ ga) (h2 : k ≠ oa) :
    dlookup k (graphModelToGraphStep dict oa ga) = dlookup k dict := by
  unfold graphModelToGraphStep
  cases hv : dlookup oa dict with
  | none => rw [dlookup_dset_ne _ _ _ _ h1, dlookup_derase_ne _ _ _ h2]
  | some v =>
    by_cases ht : v.truthy <;>
      simp [ht, dlookup_dset_ne _ _ _ _ h1, dlookup_derase_ne _ _ _ h2]

theorem graphModelStep_lookup_target (dict : PyDict GVal) (oa ga : String) :
    dlookup ga (graphModelToGraphStep dict oa ga) =
      some (match dlookup oa dict with
            | some v => if v.truthy then v else GVal.null
            | none => GVal.null) := by
  unfold graphModelToGraphStep
  cases hv : dlookup oa dict with
  | none => simp [dlookup_dset_self]
  | some v => by_cases ht : v.truthy <;> simp [ht, dlookup_dset_self]

/-! ### Claim theorems: C10, C6, C4, C2, C3, C7 -/

/-- C10: for every query string, `Audio.get_query` returns the same query
dictionary regardless of the value of its `valid_for_inline_search` argument —
both branches of its conditional build an identical `multi_match` query with
the same title-exists filter, so the argument has no effect on the result. -/
theorem audioGetQuery_ignores_valid_for_inline_search (query : Option String)
    (b₁ b₂ : Option Bool) : audioGetQuery query b₁ = audioGetQuery query b₂ := by
  unfold audioGetQuery
  cases optBoolTruthy b₁ <;> cases optBoolTruthy b₂ <;> rfl

/-- C6, counterexample: the field `downloads` is declared on the
Elasticsearch `Audio` document model but is not a field of the ArangoDB
`Audio` vertex model, so the Elasticsearch document is not a subset of the
graph model's fields. -/
theorem elasticsearchAudio_downloads_not_in_arango :
    "downloads" ∈ elasticsearchAudioFields ∧ "downloads" ∉ arangoAudioFields := by
  decide

/-- C6, amended: every field declared on the Elasticsearch `Audio` document
model other than the Elasticsearch-only interaction counters (`downloads`,
`shares`, `search_hits`, `non_search_hits`, `likes`, `dislikes`) is also a
field of the ArangoDB `Audio` vertex model. -/
theorem elasticsearchAudio_non_counter_fields_in_arango (f : String)
    (hf : f ∈ elasticsearchAudioFields)
    (hc : f ∉ elasticsearchOnlyCounterFields) : f ∈ arangoAudioFields := by
  fin_cases hf <;> revert hc <;> decide

theorem elasticsearchAudio_non_counter_fields_in_arango_witness :
    "views" ∈ arangoAudioFields :=
  elasticsearchAudio_non_counter_fields_in_arango "views" (by decide) (by decide)

/-- C4: `replace_multiple_documents` sends `ignoreRevs` as exactly the
negation of `check_for_revisions_match`, and its response handler classifies
per-document server error code 1200 as a revision mismatch, 1202 as document
not found, 1221 as an illegal document key, 1210 as a unique-constraint
violation, 600 as an illegal document, and every other per-document error
code as a generic document insert error. -/
theorem replaceMultipleDocuments_revision_handling :
    (∀ check rn ro si ws,
      dlookup "ignoreRevs" (replaceMultipleDocumentsParams check rn ro si ws) =
        some (GVal.boolean (!check))) ∧
    classifyBulkReplaceErrorCode 1200 = BulkReplaceError.documentRevisionMisMatch ∧
    classifyBulkReplaceErrorCode 1202 = BulkReplaceError.documentNotFound ∧
    classifyBulkReplaceErrorCode 1221 = BulkReplaceError.documentIllegalKey ∧
    classifyBulkReplaceErrorCode 1210 = BulkReplaceError.documentUniqueConstraint ∧
    classifyBulkReplaceErrorCode 600 = BulkReplaceError.documentIllegal ∧
    (∀ code : Int, code ∉ ([600, 1202, 1221, 1210, 1200] : List Int) →
      classifyBulkReplaceErrorCode code = BulkReplaceError.documentInsert) ∧
    (∀ code : Int, bulkReplaceResponseHandlerItem (BulkReplaceItem.err code) =
      Sum.inr (classifyBulkReplaceErrorCode code)) := by
  refine ⟨?_, rfl, rfl, rfl, rfl, rfl, ?_, fun _ => rfl⟩
  · intro check rn ro si ws
    cases ws <;> rfl
  · intro code hcode
    simp only [List.mem_cons, List.not_mem_nil, or_false] at hcode
    push_neg at hcode
    obtain ⟨h1, h2, h3, h4, h5⟩ := hcode
    simp [classifyBulkReplaceErrorCode, h1, h2, h3, h4, h5]

theorem replaceMultipleDocuments_revision_handling_witness :
    classifyBulkReplaceErrorCode 1205 = BulkReplaceError.documentInsert :=
  replaceMultipleDocuments_revision_handling.2.2.2.2.2.2.1 1205 (by decide)

/-- C2 (code bug): `update_connected_thumbnails` raises as soon as the audio
vertex already has a connected thumbnail edge, because the set of current
edge keys is computed by iterating over `current_vertices` — the set of
thumbnail key strings — instead of over `current_thumbnails_and_edges`.
Evaluated here on an audio with one existing connected thumbnail, where the
claimed behaviour would be to reconcile and return normally. -/
theorem updateConnectedThumbnails_raises_on_existing_edges :
    updateConnectedThumbnails (fun a t => a ++ ":" ++ t) (fun _ => true)
      "audios/1" [("thumbnail0", "has/edge0")] ["thumbnail0"] =
      Except.error PyraisedError.valueErrorUnpack := by
  rfl

/-- C3: for non-`None` instance arguments, `create` and `update` never
propagate an exception of the underlying database client: a raised exception
leaves them returning the document with `successful = False`, and a
successful call returns the document with its `id`/`key`/`rev` metadata
updated from the database response and `successful = True`. -/
theorem collection_create_update_catch_db_errors :
    (∀ (insertDb : PyDict GVal → DbResult) (d : CollectionDoc),
      (insertDb d.to_graph = Except.error () →
        collectionCreate insertDb (some d) = (some d, false)) ∧
      (∀ metadata, insertDb d.to_graph = Except.ok metadata →
        collectionCreate insertDb (some d) = (some (d.updateMetadata metadata), true))) ∧
    (∀ (updateDb : PyDict GVal → DbResult) (extra : List String) (o d : CollectionDoc),
      (updateDb (updatePayloadDoc extra o d).to_graph = Except.error () →
        collectionUpdate updateDb extra (some o) (some d) =
          (some (updatePayloadDoc extra o d), false)) ∧
      (∀ metadata, updateDb (updatePayloadDoc extra o d).to_graph = Except.ok metadata →
        collectionUpdate updateDb extra (some o) (some d) =
          (some ((updatePayloadDoc extra o d).updateMetadata metadata), true))) := by
  constructor
  · intro insertDb d
    constructor
    · intro h
      simp [collectionCreate, h]
    · intro metadata h
      simp [collectionCreate, h]
  · intro updateDb extra o d
    constructor
    · intro h
      simp [collectionUpdate, h]
    · intro metadata h
      simp [collectionUpdate, h]

theorem collection_create_update_catch_db_errors_witness :
    collectionCreate (fun _ => Except.error ()) (some (CollectionDoc.make 5 (some "k") [])) =
      (some (CollectionDoc.make 5 (some "k") []), false) :=
  ((collection_create_update_catch_db_errors.1 (fun _ => Except.error ())
    (CollectionDoc.make 5 (some "k") [])).1) rfl

/-- C7: `from_graph` returns `None` without raising when its input dictionary
is `None`, empty, or fails model validation, and the constructed object
otherwise; `find_by_key` returns `None` when the key is `None` or no document
matches, and the document reconstructed from the first match otherwise. -/
theorem fromGraph_findByKey_none_handling :
    (∀ construct, fromGraph construct none = none) ∧
    (∀ construct, fromGraph construct (some []) = none) ∧
    (∀ construct (dict : PyDict GVal), dict ≠ [] →
      construct (fromGraphAttributeMapper dict) = none →
      fromGraph construct (some dict) = none) ∧
    (∀ construct (dict : PyDict GVal) obj, dict ≠ [] →
      construct (fromGraphAttributeMapper dict) = some obj →
      fromGraph construct (some dict) = some obj) ∧
    (∀ construct find, findByKey construct find none = none) ∧
    (∀ construct find k, find k = [] → findByKey construct find (some k) = none) ∧
    (∀ construct find k g gs, find k = g :: gs →
      findByKey construct find (some k) = fromGraph construct (some g)) := by
  refine ⟨fun _ => rfl, fun _ => rfl, ?_, ?_, fun _ _ => rfl, ?_, ?_⟩
  · intro construct dict hne h
    simp [fromGraph, List.length_eq_zero, hne, h]
  · intro construct dict obj hne h
    simp [fromGraph, List.length_eq_zero, hne, h]
  · intro construct find k h
    simp [findByKey, h]
  · intro construct find k g gs h
    simp [findByKey, h]

theorem fromGraph_findByKey_none_handling_witness :
    fromGraph (fun _ => none) (some [("x", GVal.null)]) = none :=
  fromGraph_findByKey_none_handling.2.2.1 (fun _ => none) [("x", GVal.null)]
    (by simp) rfl

/-- C5: every persisted entity model — collection documents, graph vertices
and graph edges — carries the audit fields `created_at` and `modified_at`
(integer timestamps defaulted at object construction) and a revision id field
`rev`, and these fields appear in the dictionary produced for the database by
`to_graph` / `parse_for_graph` (the revision under its database name
`_rev`). -/
theorem audit_fields_in_db_dicts :
    (∀ now key attrs, (CollectionDoc.make now key attrs).created_at = now ∧
       (CollectionDoc.make now key attrs).modified_at = now ∧
       (CollectionDoc.make now key attrs).rev = none) ∧
    (∀ d : CollectionDoc,
       dlookup "created_at" d.to_graph = some (GVal.num d.created_at) ∧
       dlookup "modified_at" d.to_graph = some (GVal.num d.modified_at) ∧
       dlookup "_rev" d.to_graph = some (optStr d.rev)) ∧
    (∀ now key attrs, (GraphModelVertex.make now key attrs).created_at = now ∧
       (GraphModelVertex.make now key attrs).modified_at = now ∧
       (GraphModelVertex.make now key attrs).rev = none) ∧
    (∀ v : GraphModelVertex,
       dlookup "created_at" v.parse_for_graph = some (GVal.num v.created_at) ∧
       dlookup "modified_at" v.parse_for_graph = some (GVal.num v.modified_at) ∧
       dlookup "_rev" v.parse_for_graph =
         some (if (optStr v.rev).truthy then optStr v.rev else GVal.null)) ∧
    (∀ now key fn tn attrs,
       (GraphModelEdge.make now key fn tn attrs).created_at = now ∧
       (GraphModelEdge.make now key fn tn attrs).modified_at = now ∧
       (GraphModelEdge.make now key fn tn attrs).rev = none) ∧
    (∀ e : GraphModelEdge,
       dlookup "created_at" e.parse_for_graph = some (GVal.num e.created_at) ∧
       dlookup "modified_at" e.parse_for_graph = some (GVal.num e.modified_at) ∧
       dlookup "_rev" e.parse_for_graph =
         some (if (optStr e.rev).truthy then optStr e.rev else GVal.null)) := by
  refine ⟨fun now key attrs => ⟨rfl, rfl, rfl⟩, ?_,
    fun now key attrs => ⟨rfl, rfl, rfl⟩, ?_,
    fun now key fn tn attrs => ⟨rfl, rfl, rfl⟩, ?_⟩
  · intro d
    have hfold : d.to_graph =
        toGraphAttributeMapperStep (toGraphAttributeMapperStep
          (toGraphAttributeMapperStep d.pydanticDict "id" "_id") "key" "_key")
          "rev" "_rev" := rfl
    refine ⟨?_, ?_, ?_⟩
    · rw [hfold, toGraphStep_lookup_other _ _ _ _ (by decide) (by decide),
        toGraphStep_lookup_other _ _ _ _ (by decide) (by decide),
        toGraphStep_lookup_other _ _ _ _ (by decide) (by decide)]
      simp [CollectionDoc.pydanticDict, dlookup]
    · rw [hfold, toGraphStep_lookup_other _ _ _ _ (by decide) (by decide),
        toGraphStep_lookup_other _ _ _ _ (by decide) (by decide),
        toGraphStep_lookup_other _ _ _ _ (by decide) (by decide)]
      simp [CollectionDoc.pydanticDict, dlookup]
    · rw [hfold, toGraphStep_lookup_target]
      have hrev : dlookup "rev" (toGraphAttributeMapperStep
          (toGraphAttributeMapperStep d.pydanticDict "id" "_id") "key" "_key") =
          some (optStr d.rev) := by
        rw [toGraphStep_lookup_other _ _ _ _ (by decide) (by decide),
          toGraphStep_lookup_other _ _ _ _ (by decide) (by decide)]
        simp [CollectionDoc.pydanticDict, dlookup]
      rw [hrev]
      cases d.rev <;> simp [optStr]
  · intro v
    have hfold : v.parse_for_graph =
        graphModelToGraphStep (graphModelToGraphStep
          (graphModelToGraphStep v.pydanticDict "id" "_id") "key" "_key")
          "rev" "_rev" := rfl
    refine ⟨?_, ?_, ?_⟩
    · rw [hfold, graphModelStep_lookup_other _ _ _ _ (by decide) (by decide),
        graphModelStep_lookup_other _ _ _ _ (by decide) (by decide),
        graphModelStep_lookup_other _ _ _ _ (by decide) (by decide)]
      simp [GraphModelVertex.pydanticDict, dlookup]
    · rw [hfold, graphModelStep_lookup_other _ _ _ _ (by decide) (by decide),
        graphModelStep_lookup_other _ _ _ _ (by decide) (by decide),
        graphModelStep_lookup_other _ _ _ _ (by decide) (by decide)]
      simp [GraphModelVertex.pydanticDict, dlookup]
    · rw [hfold, graphModelStep_lookup_target]
      have hrev : dlookup "rev" (graphModelToGraphStep
          (graphModelToGraphStep v.pydanticDict "id" "_id") "key" "_key") =
          some (optStr v.rev) := by
        rw [graphModelStep_lookup_other _ _ _ _ (by decide) (by decide),
          graphModelStep_lookup_other _ _ _ _ (by decide) (by decide)]
        simp [GraphModelVertex.pydanticDict, dlookup]
      rw [hrev]
  · intro e
    have hfold : e.parse_for_graph =
        dset "_to" (optStr e.to_node.id) (dset "_from" (optStr e.from_node.id)
          (graphModelToGraphStep (graphModelToGraphStep
            (graphModelToGraphStep
              ([("id", optStr e.id), ("key", optStr e.key), ("rev", optStr e.rev),
                ("created_at", GVal.num e.created_at),
                ("modified_at", GVal.num e.modified_at)] ++ e.attrs)
              "id" "_id") "key" "_key") "rev" "_rev")) := rfl
    refine ⟨?_, ?_, ?_⟩
    · rw [hfold, dlookup_dset_ne _ _ _ _ (by decide),
        dlookup_dset_ne _ _ _ _ (by decide),
        graphModelStep_lookup_other _ _ _ _ (by decide) (by decide),
        graphModelStep_lookup_other _ _ _ _ (by decide) (by decide),
        graphModelStep_lookup_other _ _ _ _ (by decide) (by decide)]
      simp [dlookup]
    · rw [hfold, dlookup_dset_ne _ _ _ _ (by decide),
        dlookup_dset_ne _ _ _ _ (by decide),
        graphModelStep_lookup_other _ _ _ _ (by decide) (by decide),
        graphModelStep_lookup_other _ _ _ _ (by decide) (by decide),
        graphModelStep_lookup_other _ _ _ _ (by decide) (by decide)]
      simp [dlookup]
    · rw [hfold, dlookup_dset_ne _ _ _ _ (by decide),
        dlookup_dset_ne _ _ _ _ (by decide), graphModelStep_lookup_target]
      have hrev : dlookup "rev" (graphModelToGraphStep (graphModelToGraphStep
          ([("id", optStr e.id), ("key", optStr e.key), ("rev", optStr e.rev),
            ("created_at", GVal.num e.created_at),
            ("modified_at", GVal.num e.modified_at)] ++ e.attrs)
          "id" "_id") "key" "_key") = some (optStr e.rev) := by
        rw [graphModelStep_lookup_other _ _ _ _ (by decide) (by decide),
          graphModelStep_lookup_other _ _ _ _ (by decide) (by decide)]
        simp [dlookup]
      rw [hrev]

/-! ### Non-updatable-field preservation (claim C8) -/

/-- The typed base field names of `BaseCollectionDocument`. -/
def baseDocFieldNames : List String :=
  ["schema_version", "id", "key", "rev", "created_at", "modified_at"]

theorem dlookup_setField_attrs_ne (d : CollectionDoc) (g : String) (v : GVal)
    (f : String) (hfg : f ≠ g) :
    dlookup f (d.setField g v).attrs = dlookup f d.attrs := by
  unfold CollectionDoc.setField
  split_ifs <;> simp [dlookup_dset_ne _ _ _ _ hfg]

theorem dlookup_setField_attrs_self (d : CollectionDoc) (f : String) (v : GVal)
    (hf : f ∉ baseDocFieldNames) :
    dlookup f (d.setField f v).attrs = some v := by
  simp only [baseDocFieldNames, List.mem_cons, List.not_mem_nil, or_false] at hf
  push_neg at hf
  obtain ⟨h1, h2, h3, h4, h5, h6⟩ := hf
  unfold CollectionDoc.setField
  simp [h1, h2, h3, h4, h5, h6, dlookup_dset_self]

theorem setField_created_at_ne (d : CollectionDoc) (g : String) (v : GVal)
    (hg : g ≠ "created_at") : (d.setField g v).created_at = d.created_at := by
  unfold CollectionDoc.setField
  split_ifs <;> simp_all

theorem setField_created_at_self (d : CollectionDoc) (c : Int) :
    (d.setField "created_at" (GVal.num c)).created_at = c := by
  simp [CollectionDoc.setField]

theorem getField_created_at (o : CollectionDoc) :
    o.getField "created_at" = GVal.num o.created_at := by
  simp [CollectionDoc.getField]

theorem foldSetFields_created_at (E : List String) (o : CollectionDoc) :
    ∀ acc : CollectionDoc, acc.created_at = o.created_at →
      (E.foldl (fun a f => a.setField f (o.getField f)) acc).created_at =
        o.created_at := by
  induction E with
  | nil => intro acc hacc; exact hacc
  | cons g rest ih =>
    intro acc hacc
    simp only [List.foldl_cons]
    apply ih
    by_cases hg : g = "created_at"
    · subst hg
      rw [getField_created_at, setField_created_at_self]
    · rw [setField_created_at_ne _ _ _ hg]
      exact hacc

theorem foldSetFields_attrs_not_mem (E : List String) (o : CollectionDoc)
    (f : String) (h : f ∉ E) :
    ∀ acc : CollectionDoc,
      dlookup f (E.foldl (fun a g => a.setField g (o.getField g)) acc).attrs =
        dlookup f acc.attrs := by
  induction E with
  | nil => intro acc; rfl
  | cons g rest ih =>
    intro acc
    simp only [List.mem_cons] at h
    push_neg at h
    simp only [List.foldl_cons]
    rw [ih h.2, dlookup_setField_attrs_ne _ _ _ _ h.1]

theorem foldSetFields_attrs_mem (E : List String) (o : CollectionDoc)
    (f : String) (hbase : f ∉ baseDocFieldNames) :
    ∀ acc : CollectionDoc, f ∈ E →
      dlookup f (E.foldl (fun a g => a.setField g (o.getField g)) acc).attrs =
        some (o.getField f) := by
  induction E with
  | nil => intro acc hf; simp at hf
  | cons g rest ih =>
    intro acc hf
    simp only [List.foldl_cons]
    by_cases hfr : f ∈ rest
    · exact ih _ hfr
    · have hfg : f = g := (List.mem_cons.mp hf).resolve_right hfr
      subst hfg
      rw [foldSetFields_attrs_not_mem _ _ _ hfr,
        dlookup_setField_attrs_self _ _ _ hbase]

theorem getField_of_not_base (d : CollectionDoc) (f : String)
    (hbase : f ∉ baseDocFieldNames) :
    d.getField f = (dlookup f d.attrs).getD GVal.null := by
  simp only [baseDocFieldNames, List.mem_cons, List.not_mem_nil, or_false] at hbase
  push_neg at hbase
  obtain ⟨h1, h2, h3, h4, h5, h6⟩ := hbase
  simp [CollectionDoc.getField, h1, h2, h3, h4, h5, h6]

/-- C8: for every pair `(old_doc, doc)` given to `update`, the value persisted
for — and kept on the returned document for — `created_at` and every field of
the class's `_extra_do_not_update_fields` is the old document's value; an
update never changes these fields. -/
theorem update_preserves_non_updatable_fields
    (updateDb : PyDict GVal → DbResult) (E : List String) (o d : CollectionDoc)
    (f : String) (hf : f ∈ E) (hbase : f ∉ baseDocFieldNames)
    (hgr : f ∉ (["_id", "_key", "_rev"] : List String)) :
    dlookup "created_at" (updatePayloadDoc E o d).to_graph =
      some (GVal.num o.created_at) ∧
    dlookup f (updatePayloadDoc E o d).to_graph = some (o.getField f) ∧
    (∀ r ok, collectionUpdate updateDb E (some o) (some d) = (some r, ok) →
      r.created_at = o.created_at ∧ r.getField f = o.getField f) := by
  have hca : (updatePayloadDoc E o d).created_at = o.created_at := by
    unfold updatePayloadDoc CollectionDoc.updateNonUpdatableFields
    exact foldSetFields_created_at _ _ _ rfl
  have hattr : dlookup f (updatePayloadDoc E o d).attrs = some (o.getField f) := by
    unfold updatePayloadDoc CollectionDoc.updateNonUpdatableFields
    exact foldSetFields_attrs_mem _ _ _ hbase _ hf
  have hbase' : f ∉ baseDocFieldNames := hbase
  simp only [baseDocFieldNames, List.mem_cons, List.not_mem_nil, or_false] at hbase hgr
  push_neg at hbase hgr
  obtain ⟨hb1, hb2, hb3, hb4, hb5, hb6⟩ := hbase
  obtain ⟨hg1, hg2, hg3⟩ := hgr
  have hfold : ∀ p : CollectionDoc, p.to_graph =
      toGraphAttributeMapperStep (toGraphAttributeMapperStep
        (toGraphAttributeMapperStep p.pydanticDict "id" "_id") "key" "_key")
        "rev" "_rev" := fun _ => rfl
  have hpay_get : (updatePayloadDoc E o d).getField f = o.getField f := by
    rw [getField_of_not_base _ _ hbase', hattr]
    rfl
  refine ⟨?_, ?_, ?_⟩
  · rw [hfold, toGraphStep_lookup_other _ _ _ _ (by decide) (by decide),
      toGraphStep_lookup_other _ _ _ _ (by decide) (by decide),
      toGraphStep_lookup_other _ _ _ _ (by decide) (by decide)]
    simp [CollectionDoc.pydanticDict, dlookup, hca]
  · rw [hfold, toGraphStep_lookup_other _ _ _ _ hg3 hb4,
      toGraphStep_lookup_other _ _ _ _ hg2 hb3,
      toGraphStep_lookup_other _ _ _ _ hg1 hb2]
    simp [CollectionDoc.pydanticDict, dlookup_append, dlookup, hb1, hb2, hb3,
      hb4, hb5, hb6, Ne.symm hb1, Ne.symm hb2, Ne.symm hb3, Ne.symm hb4,
      Ne.symm hb5, Ne.symm hb6, hattr, Option.orElse]
  · intro r ok hr
    have hmeta_get : ∀ m, ((updatePayloadDoc E o d).updateMetadata m).getField f =
        o.getField f := by
      intro m
      rw [getField_of_not_base _ _ hbase']
      have hm : ((updatePayloadDoc E o d).updateMetadata m).attrs =
          (updatePayloadDoc E o d).attrs := rfl
      rw [hm, hattr]
      rfl
    have hmeta_ca : ∀ m, ((updatePayloadDoc E o d).updateMetadata m).created_at =
        o.created_at := fun _ => hca
    simp only [collectionUpdate] at hr
    rcases hdb : updateDb (updatePayloadDoc E o d).to_graph with e | metadata <;>
      rw [hdb] at hr <;>
      simp only [Prod.mk.injEq, Option.some.injEq] at hr
    · rw [← hr.1]
      exact ⟨hca, hpay_get⟩
    · rw [← hr.1]
      exact ⟨hmeta_ca _, hmeta_get _⟩

theorem update_preserves_non_updatable_fields_witness :
    dlookup "deleted_at" (updatePayloadDoc audioExtraDoNotUpdateFields
      (CollectionDoc.make 1 (some "a") [("deleted_at", GVal.num 7)])
      (CollectionDoc.make 2 (some "a") [("deleted_at", GVal.null)])).to_graph =
      some ((CollectionDoc.make 1 (some "a")
        [("deleted_at", GVal.num 7)]).getField "deleted_at") :=
  (update_preserves_non_updatable_fields (fun _ => Except.error ())
    audioExtraDoNotUpdateFields
    (CollectionDoc.make 1 (some "a") [("deleted_at", GVal.num 7)])
    (CollectionDoc.make 2 (some "a") [("deleted_at", GVal.null)])
    "deleted_at" (by decide) (by decide) (by decide)).2.1

/-! ### Lemmas about the hashtag reconciliation (claims C1, C9) -/

theorem mem_currentVertexKeys (current : List (String × String)) (k : String) :
    k ∈ currentVertexKeys current ↔ ∃ p ∈ current, p.1 = k := by
  have general : ∀ (l : List (String × String)) (acc : List String),
      k ∈ l.foldl (fun s p => s.insert p.1) acc ↔
        k ∈ acc ∨ ∃ p ∈ l, p.1 = k := by
    intro l
    induction l with
    | nil => intro acc; simp
    | cons p rest ih =>
      intro acc
      simp only [List.foldl_cons, ih, List.mem_insert_iff]
      constructor
      · rintro ((h | h) | h)
        · exact Or.inr ⟨p, by simp, h.symm⟩
        · exact Or.inl h
        · rcases h with ⟨q, hq, hqk⟩
          exact Or.inr ⟨q, by simp [hq], hqk⟩
      · rintro (h | ⟨q, hq, hqk⟩)
        · exact Or.inl (Or.inr h)
        · rcases List.mem_cons.mp hq with h | h
          · exact Or.inl (Or.inl (h ▸ hqk.symm))
          · exact Or.inr ⟨q, h, hqk⟩
  simpa using general current []

theorem mem_currentEdgeKeys (current : List (String × String)) (k : String) :
    k ∈ currentEdgeKeys current ↔ ∃ p ∈ current, p.2 = k := by
  have general : ∀ (l : List (String × String)) (acc : List String),
      k ∈ l.foldl (fun s p => s.insert p.2) acc ↔
        k ∈ acc ∨ ∃ p ∈ l, p.2 = k := by
    intro l
    induction l with
    | nil => intro acc; simp
    | cons p rest ih =>
      intro acc
      simp only [List.foldl_cons, ih, List.mem_insert_iff]
      constructor
      · rintro ((h | h) | h)
        · exact Or.inr ⟨p, by simp, h.symm⟩
        · exact Or.inl h
        · rcases h with ⟨q, hq, hqk⟩
          exact Or.inr ⟨q, by simp [hq], hqk⟩
      · rintro (h | ⟨q, hq, hqk⟩)
        · exact Or.inl (Or.inr h)
        · rcases List.mem_cons.mp hq with h | h
          · exact Or.inl (Or.inl (h ▸ hqk.symm))
          · exact Or.inr ⟨q, h, hqk⟩
  simpa using general current []

theorem currentVerticesMapping_eq_self (current : List (String × String))
    (k : String) (h : k ∈ currentVertexKeys current) :
    currentVerticesMapping current k = some k := by
  have general : ∀ (l : List (String × String)) (accSet : List String)
      (accMap : String → Option String),
      (∀ q ∈ accSet, accMap q = some q) →
      ∀ q ∈ l.foldl (fun s p => s.insert p.1) accSet,
        l.foldl (fun m p r => if r = p.1 then some p.1 else m r) accMap q =
          some q := by
    intro l
    induction l with
    | nil => intro accSet accMap hlink q hq; exact hlink q hq
    | cons p rest ih =>
      intro accSet accMap hlink q hq
      simp only [List.foldl_cons] at hq ⊢
      refine ih _ _ ?_ q hq
      intro r hr
      rcases List.mem_insert_iff.mp hr with h | h
      · simp [h]
      · by_cases hrp : r = p.1
        · simp [hrp]
        · simp [hrp, hlink r h]
  exact general current [] (fun _ => none) (by simp) k h

theorem currentEdgesMapping_eq_self (current : List (String × String))
    (k : String) (h : k ∈ currentEdgeKeys current) :
    currentEdgesMapping current k = some k := by
  have general : ∀ (l : List (String × String)) (accSet : List String)
      (accMap : String → Option String),
      (∀ q ∈ accSet, accMap q = some q) →
      ∀ q ∈ l.foldl (fun s p => s.insert p.2) accSet,
        l.foldl (fun m p r => if r = p.2 then some p.2 else m r) accMap q =
          some q := by
    intro l
    induction l with
    | nil => intro accSet accMap hlink q hq; exact hlink q hq
    | cons p rest ih =>
      intro accSet accMap hlink q hq
      simp only [List.foldl_cons] at hq ⊢
      refine ih _ _ ?_ q hq
      intro r hr
      rcases List.mem_insert_iff.mp hr with h | h
      · simp [h]
      · by_cases hrp : r = p.2
        · simp [hrp]
        · simp [hrp, hlink r h]
  exact general current [] (fun _ => none) (by simp) k h

theorem currentEdgesMapping_some (current : List (String × String))
    (k e : String) (h : currentEdgesMapping current k = some e) :
    ∃ p ∈ current, p.2 = e := by
  have aux : ∀ (l : List (String × String)) (accMap : String → Option String),
      (∀ q w, accMap q = some w → ∃ p ∈ current, p.2 = w) →
      (∀ p ∈ l, p ∈ current) →
      ∀ q w,
        l.foldl (fun m p r => if r = p.2 then some p.2 else m r) accMap q =
          some w → ∃ p ∈ current, p.2 = w := by
    intro l
    induction l with
    | nil => intro accMap hacc _ q w hw; exact hacc q w hw
    | cons p rest ih =>
      intro accMap hacc hsub q w hw
      simp only [List.foldl_cons] at hw
      refine ih _ ?_ (fun r hr => hsub r (by simp [hr])) q w hw
      intro r v hv
      by_cases hrp : r = p.2
      · simp [hrp] at hv
        exact ⟨p, hsub p (by simp), hv⟩
      · simp [hrp] at hv
        exact hacc r v hv
  exact aux current (fun _ => none) (by simp) (fun p hp => hp) k e h

/-- The loop invariant of the `for hashtag_string, start_index, mention_source
in hashtags` loop: the edge mapping certifies each collected edge key, and the
vertex mapping certifies each collected vertex key against a hashtag string of
the input. -/
def NewHashtagInv (parseHashtagKey : String → String)
    (parseHasHashtagKey : String → String → MentionSource → Nat → String)
    (audioKey : String) (hashtags : List (String × Nat × MentionSource))
    (st : NewHashtagState) : Prop :=
  (∀ k, k ∈ st.newEdges → ∃ hk idx ms,
    st.newEdgesMapping k = some (hk, idx, ms) ∧
    parseHasHashtagKey audioKey hk ms idx = k ∧ hk ∈ st.newVertices) ∧
  (∀ hk, hk ∈ st.newVertices → ∃ s,
    st.newVerticesMapping hk = some s ∧ parseHashtagKey s = hk ∧
    ∃ t ∈ hashtags, t.1 = s)

theorem newHashtagStep_preserves_inv (parseHashtagKey : String → String)
    (parseHasHashtagKey : String → String → MentionSource → Nat → String)
    (audioKey : String) (hashtags : List (String × Nat × MentionSource))
    (st : NewHashtagState) (h : String × Nat × MentionSource)
    (hh : h ∈ hashtags)
    (hinv : NewHashtagInv parseHashtagKey parseHasHashtagKey audioKey hashtags st) :
    NewHashtagInv parseHashtagKey parseHasHashtagKey audioKey hashtags
      (newHashtagStep parseHashtagKey parseHasHashtagKey audioKey st h) := by
  obtain ⟨hedges, hverts⟩ := hinv
  constructor
  · intro k hk
    simp only [newHashtagStep, List.mem_insert_iff] at hk ⊢
    rcases hk with hk | hk
    · subst hk
      refine ⟨parseHashtagKey h.1, h.2.1, h.2.2, by simp, rfl, by simp⟩
    · rcases hedges k hk with ⟨hk0, idx0, ms0, hmap, hkey, hvert⟩
      by_cases hcase : k = parseHasHashtagKey audioKey (parseHashtagKey h.1) h.2.2 h.2.1
      · refine ⟨parseHashtagKey h.1, h.2.1, h.2.2, by simp [hcase], hcase.symm, by simp⟩
      · exact ⟨hk0, idx0, ms0, by simp [hcase, hmap], hkey, Or.inr hvert⟩
  · intro hk hkmem
    simp only [newHashtagStep, List.mem_insert_iff] at hkmem ⊢
    rcases hkmem with hkmem | hkmem
    · subst hkmem
      exact ⟨h.1, by simp, rfl, h, hh, rfl⟩
    · rcases hverts hk hkmem with ⟨s, hmap, hkey, t, ht, hts⟩
      by_cases hcase : hk = parseHashtagKey h.1
      · exact ⟨h.1, by simp [hcase], hcase.symm, h, hh, rfl⟩
      · exact ⟨s, by simp [hcase, hmap], hkey, t, ht, hts⟩

theorem newHashtagFold_inv (parseHashtagKey : String → String)
    (parseHasHashtagKey : String → String → MentionSource → Nat → String)
    (audioKey : String) (hashtags : List (String × Nat × MentionSource)) :
    NewHashtagInv parseHashtagKey parseHasHashtagKey audioKey hashtags
      (newHashtagFold parseHashtagKey parseHasHashtagKey audioKey hashtags) := by
  have aux : ∀ (l : List (String × Nat × MentionSource)) (st : NewHashtagState),
      (∀ h ∈ l, h ∈ hashtags) →
      NewHashtagInv parseHashtagKey parseHasHashtagKey audioKey hashtags st →
      NewHashtagInv parseHashtagKey parseHasHashtagKey audioKey hashtags
        (l.foldl (newHashtagStep parseHashtagKey parseHasHashtagKey audioKey) st) := by
    intro l
    induction l with
    | nil => intro st _ hst; exact hst
    | cons h rest ih =>
      intro st hsub hst
      simp only [List.foldl_cons]
      exact ih _ (fun x hx => hsub x (by simp [hx]))
        (newHashtagStep_preserves_inv _ _ _ _ _ _ (hsub h (by simp)) hst)
  refine aux hashtags _ (fun _ hx => hx) ?_
  constructor
  · intro k hk; simp at hk
  · intro hk hkmem; simp at hkmem

theorem deleteRemovedEdges_spec (m : String → Option String) (ks : List String)
    (hm : ∀ k ∈ ks, m k = some k) :
    (deleteRemovedEdges m ks).2 = true ∧
    (∀ e, GraphOp.deleteHasHashtagEdge e ∈ (deleteRemovedEdges m ks).1 ↔ e ∈ ks) := by
  induction ks with
  | nil => exact ⟨rfl, by simp [deleteRemovedEdges]⟩
  | cons k rest ih =>
    have hk : m k = some k := hm k (by simp)
    have hrest := ih (fun q hq => hm q (by simp [hq]))
    constructor
    · simp only [deleteRemovedEdges, hk]
      exact hrest.1
    · intro e
      simp only [deleteRemovedEdges, hk, List.mem_cons, hrest.2 e,
        GraphOp.deleteHasHashtagEdge.injEq]

theorem deleteRemovedEdges_ops_shape (m : String → Option String) (ks : List String) :
    ∀ op ∈ (deleteRemovedEdges m ks).1,
      ∃ k e, op = GraphOp.deleteHasHashtagEdge e ∧ m k = some e := by
  induction ks with
  | nil => intro op hop; simp [deleteRemovedEdges] at hop
  | cons k rest ih =>
    intro op hop
    unfold deleteRemovedEdges at hop
    cases hmk : m k with
    | none => rw [hmk] at hop; simp at hop
    | some e =>
      rw [hmk] at hop
      simp only [List.mem_cons] at hop
      rcases hop with hop | hop
      · exact ⟨k, e, hop, hmk⟩
      · exact ih op hop

theorem createNewHashtagVertices_ops_shape (cv vm : String → Option String)
    (ks : List String) :
    ∀ acc : String → Option String,
      ∀ op ∈ (createNewHashtagVertices cv vm ks acc).1,
        ∃ s, op = GraphOp.getOrCreateHashtagVertex s := by
  induction ks with
  | nil => intro acc op hop; simp [createNewHashtagVertices] at hop
  | cons hk rest ih =>
    intro acc op hop
    unfold createNewHashtagVertices at hop
    split at hop
    · rename_i s heq
      split at hop
      · exact ih _ op hop
      · split at hop
        · rename_i vk hcv
          simp only [List.mem_cons] at hop
          rcases hop with hop | hop
          · exact ⟨s, hop⟩
          · exact ih _ op hop
        · simp only [List.mem_cons] at hop
          rcases hop with hop | hop
          · exact ⟨s, hop⟩
          · exact ih _ op hop
    · exact ih _ op hop

theorem createNewHashtagVertices_map_spec (cv vm : String → Option String)
    (ks : List String)
    (hks : ∀ hk ∈ ks, ∃ s, vm hk = some s ∧ s ≠ "" ∧ cv s = some hk) :
    ∀ acc : String → Option String,
      (∀ q ∈ ks, (createNewHashtagVertices cv vm ks acc).2 q = some q) ∧
      (∀ q, q ∉ ks → (createNewHashtagVertices cv vm ks acc).2 q = acc q) := by
  induction ks with
  | nil => intro acc; exact ⟨by simp, fun q _ => rfl⟩
  | cons hk rest ih =>
    intro acc
    obtain ⟨s, hvm, hs, hcv⟩ := hks hk (by simp)
    have hrest := ih (fun q hq => hks q (by simp [hq]))
      (fun q => if q = hk then some hk else acc q)
    have hstep : createNewHashtagVertices cv vm (hk :: rest) acc =
        (GraphOp.getOrCreateHashtagVertex s ::
          (createNewHashtagVertices cv vm rest
            (fun q => if q = hk then some hk else acc q)).1,
         (createNewHashtagVertices cv vm rest
            (fun q => if q = hk then some hk else acc q)).2) := by
      simp only [createNewHashtagVertices, hvm, hcv, if_neg hs]
    rw [hstep]
    constructor
    · intro q hq
      rcases List.mem_cons.mp hq with hq | hq
      · subst hq
        by_cases hqr : q ∈ rest
        · exact hrest.1 q hqr
        · rw [hrest.2 q hqr]
          simp
      · exact hrest.1 q hq
    · intro q hq
      simp only [List.mem_cons] at hq
      push_neg at hq
      rw [hrest.2 q hq.2]
      simp [hq.1]

theorem createNewHasHashtagEdges_spec (ce : String → MentionSource → Nat → Bool)
    (em : String → Option (String × Nat × MentionSource))
    (vm : String → Option String)
    (ekf : String → String → MentionSource → Nat → String) (aKey : String)
    (ks : List String)
    (hks : ∀ k ∈ ks, ∃ hk idx ms, em k = some (hk, idx, ms) ∧
      ekf aKey hk ms idx = k ∧ vm hk = some hk)
    (hce : ∀ vk ms idx, ce vk ms idx = true) :
    (createNewHasHashtagEdges ce em vm ekf aKey ks).2 = true ∧
    (∀ k, (∃ vk ms idx, GraphOp.createHasHashtagEdge k vk ms idx ∈
        (createNewHasHashtagEdges ce em vm ekf aKey ks).1) ↔ k ∈ ks) := by
  induction ks with
  | nil =>
    refine ⟨rfl, fun k => ?_⟩
    simp [createNewHasHashtagEdges]
  | cons k rest ih =>
    obtain ⟨hk0, idx0, ms0, hem, hekf, hvm⟩ := hks k (by simp)
    have hrest := ih (fun q hq => hks q (by simp [hq]))
    have hstep : createNewHasHashtagEdges ce em vm ekf aKey (k :: rest) =
        (GraphOp.createHasHashtagEdge k hk0 ms0 idx0 ::
          (createNewHasHashtagEdges ce em vm ekf aKey rest).1,
         (createNewHasHashtagEdges ce em vm ekf aKey rest).2) := by
      simp only [createNewHasHashtagEdges, hem, hvm, hce hk0 ms0 idx0,
        if_true, hekf]
    rw [hstep]
    refine ⟨hrest.1, fun q => ?_⟩
    constructor
    · rintro ⟨vk, ms, idx, hop⟩
      simp only [List.mem_cons, GraphOp.createHasHashtagEdge.injEq] at hop
      rcases hop with ⟨hq, _, _, _⟩ | hop
      · simp [hq]
      · have := (hrest.2 q).mp ⟨vk, ms, idx, hop⟩
        simp [this]
    · intro hq
      rcases List.mem_cons.mp hq with hq | hq
      · subst hq
        exact ⟨hk0, ms0, idx0, by simp⟩
      · rcases (hrest.2 q).mpr hq with ⟨vk, ms, idx, hop⟩
        exact ⟨vk, ms, idx, by simp [hop]⟩

theorem createNewHasHashtagEdges_ops_shape (ce : String → MentionSource → Nat → Bool)
    (em : String → Option (String × Nat × MentionSource))
    (vm : String → Option String)
    (ekf : String → String → MentionSource → Nat → String) (aKey : String)
    (ks : List String) :
    ∀ op ∈ (createNewHasHashtagEdges ce em vm ekf aKey ks).1,
      ∃ k vk ms idx, op = GraphOp.createHasHashtagEdge k vk ms idx := by
  induction ks with
  | nil => intro op hop; simp [createNewHasHashtagEdges] at hop
  | cons k rest ih =>
    intro op hop
    unfold createNewHasHashtagEdges at hop
    split at hop
    · simp at hop
    · rename_i hk0 idx0 ms0 heq
      split at hop
      · exact ih op hop
      · rename_i vk hvm
        split at hop
        · simp only [List.mem_cons] at hop
          rcases hop with hop | hop
          · exact ⟨_, _, _, _, hop⟩
          · exact ih op hop
        · simp at hop

/-- C1: for every audio vertex and every list of hashtags found in its text
attributes, `_update_connected_hashtags` deletes exactly the `HasHashtag`
edges whose keys are in the current edge-key set but not in the desired
edge-key set, and — assuming the underlying vertex/edge database operations
succeed — creates exactly the edges whose keys are in the desired set but not
in the current set; edges present in both sets are neither deleted nor
re-created.  The hypotheses state the success assumption: every found hashtag
string is non-empty (`find_hashtags` never yields an empty hashtag),
`get_or_create_hashtag` returns the vertex keyed by `Hashtag.parse_key`, and
`HasHashtag.get_or_create_edge` returns an edge. -/
theorem updateConnectedHashtags_edge_diff
    (pk : String → String) (ekf : String → String → MentionSource → Nat → String)
    (cv : String → Option String) (ce : String → MentionSource → Nat → Bool)
    (aKey : String) (current : List (String × String))
    (hashtags : List (String × Nat × MentionSource))
    (hne : ∀ h ∈ hashtags, h.1 ≠ "")
    (hcv : ∀ s, cv s = some (pk s))
    (hce : ∀ vk ms idx, ce vk ms idx = true) :
    (updateConnectedHashtags pk ekf cv ce aKey current hashtags).2 = true ∧
    (∀ k, GraphOp.deleteHasHashtagEdge k ∈
        (updateConnectedHashtags pk ekf cv ce aKey current hashtags).1 ↔
      k ∈ currentEdgeKeys current ∧ k ∉ desiredEdgeKeys pk ekf aKey hashtags) ∧
    (∀ k, (∃ vk ms idx, GraphOp.createHasHashtagEdge k vk ms idx ∈
        (updateConnectedHashtags pk ekf cv ce aKey current hashtags).1) ↔
      k ∈ desiredEdgeKeys pk ekf aKey hashtags ∧ k ∉ currentEdgeKeys current) ∧
    (∀ k, k ∈ currentEdgeKeys current → k ∈ desiredEdgeKeys pk ekf aKey hashtags →
      GraphOp.deleteHasHashtagEdge k ∉
        (updateConnectedHashtags pk ekf cv ce aKey current hashtags).1 ∧
      ∀ vk ms idx, GraphOp.createHasHashtagEdge k vk ms idx ∉
        (updateConnectedHashtags pk ekf cv ce aKey current hashtags).1) := by
  obtain ⟨hinvE, hinvV⟩ := newHashtagFold_inv pk ekf aKey hashtags
  have hremhm : ∀ k ∈ (currentEdgeKeys current).filter
      (fun k => decide (k ∉ (newHashtagFold pk ekf aKey hashtags).newEdges)),
      currentEdgesMapping current k = some k := by
    intro k hk
    exact currentEdgesMapping_eq_self current k (List.mem_filter.mp hk).1
  have hdel := deleteRemovedEdges_spec (currentEdgesMapping current) _ hremhm
  have hksV : ∀ x ∈ (newHashtagFold pk ekf aKey hashtags).newVertices.filter
      (fun k => decide (k ∉ currentVertexKeys current)),
      ∃ s, (newHashtagFold pk ekf aKey hashtags).newVerticesMapping x = some s ∧
        s ≠ "" ∧ cv s = some x := by
    intro x hx
    obtain ⟨s, hmap, hpk, t, ht, hts⟩ := hinvV x (List.mem_filter.mp hx).1
    refine ⟨s, hmap, ?_, ?_⟩
    · rw [← hts]
      exact hne t ht
    · rw [hcv, hpk]
  have hver := createNewHashtagVertices_map_spec cv
    (newHashtagFold pk ekf aKey hashtags).newVerticesMapping
    ((newHashtagFold pk ekf aKey hashtags).newVertices.filter
      (fun k => decide (k ∉ currentVertexKeys current)))
    hksV (currentVerticesMapping current)
  have hvm_all : ∀ hk ∈ (newHashtagFold pk ekf aKey hashtags).newVertices,
      (createNewHashtagVertices cv
        (newHashtagFold pk ekf aKey hashtags).newVerticesMapping
        ((newHashtagFold pk ekf aKey hashtags).newVertices.filter
          (fun k => decide (k ∉ currentVertexKeys current)))
        (currentVerticesMapping current)).2 hk = some hk := by
    intro hk hkmem
    by_cases hcur : hk ∈ currentVertexKeys current
    · have hnotin : hk ∉ (newHashtagFold pk ekf aKey hashtags).newVertices.filter
          (fun k => decide (k ∉ currentVertexKeys current)) := by
        simp [List.mem_filter, hcur]
      rw [hver.2 hk hnotin]
      exact currentVerticesMapping_eq_self current hk hcur
    · have hin : hk ∈ (newHashtagFold pk ekf aKey hashtags).newVertices.filter
          (fun k => decide (k ∉ currentVertexKeys current)) := by
        simp [List.mem_filter, hkmem, hcur]
      exact hver.1 hk hin
  have hksE : ∀ k ∈ (newHashtagFold pk ekf aKey hashtags).newEdges.filter
      (fun k => decide (k ∉ currentEdgeKeys current)),
      ∃ hk idx ms,
        (newHashtagFold pk ekf aKey hashtags).newEdgesMapping k =
          some (hk, idx, ms) ∧ ekf aKey hk ms idx = k ∧
        (createNewHashtagVertices cv
          (newHashtagFold pk ekf aKey hashtags).newVerticesMapping
          ((newHashtagFold pk ekf aKey hashtags).newVertices.filter
            (fun k => decide (k ∉ currentVertexKeys current)))
          (currentVerticesMapping current)).2 hk = some hk := by
    intro k hk
    obtain ⟨hk0, idx0, ms0, hm, hkeq, hv⟩ := hinvE k (List.mem_filter.mp hk).1
    exact ⟨hk0, idx0, ms0, hm, hkeq, hvm_all hk0 hv⟩
  have hedg := createNewHasHashtagEdges_spec ce
    (newHashtagFold pk ekf aKey hashtags).newEdgesMapping
    ((createNewHashtagVertices cv
      (newHashtagFold pk ekf aKey hashtags).newVerticesMapping
      ((newHashtagFold pk ekf aKey hashtags).newVertices.filter
        (fun k => decide (k ∉ currentVertexKeys current)))
      (currentVerticesMapping current)).2) ekf aKey
    ((newHashtagFold pk ekf aKey hashtags).newEdges.filter
      (fun k => decide (k ∉ currentEdgeKeys current)))
    hksE hce
  simp only [desiredEdgeKeys, updateConnectedHashtags]
  rw [hdel.1]
  simp only [eq_self_iff_true, if_true, List.mem_append]
  refine ⟨hedg.1, ?_, ?_, ?_⟩
  · intro k
    constructor
    · rintro ((h | h) | h)
      · have hk := (hdel.2 k).mp h
        have := List.mem_filter.mp hk
        exact ⟨this.1, by simpa using this.2⟩
      · obtain ⟨s, hops⟩ := createNewHashtagVertices_ops_shape _ _ _ _ _ h
        simp at hops
      · obtain ⟨k0, vk0, ms0, idx0, hops⟩ :=
          createNewHasHashtagEdges_ops_shape _ _ _ _ _ _ _ h
        simp at hops
    · rintro ⟨hcur, hnot⟩
      refine Or.inl (Or.inl ((hdel.2 k).mpr ?_))
      exact List.mem_filter.mpr ⟨hcur, by simpa using hnot⟩
  · intro k
    constructor
    · rintro ⟨vk, ms, idx, (h | h) | h⟩
      · obtain ⟨k0, e0, hops, _⟩ := deleteRemovedEdges_ops_shape _ _ _ h
        simp at hops
      · obtain ⟨s, hops⟩ := createNewHashtagVertices_ops_shape _ _ _ _ _ h
        simp at hops
      · have hk := (hedg.2 k).mp ⟨vk, ms, idx, h⟩
        have := List.mem_filter.mp hk
        exact ⟨this.1, by simpa using this.2⟩
    · rintro ⟨hnew, hnot⟩
      obtain ⟨vk, ms, idx, h⟩ := (hedg.2 k).mpr
        (List.mem_filter.mpr ⟨hnew, by simpa using hnot⟩)
      exact ⟨vk, ms, idx, Or.inr h⟩
  · intro k hcur hnew
    constructor
    · intro h
      rcases h with (h | h) | h
      · have hk := (hdel.2 k).mp h
        have := (List.mem_filter.mp hk).2
        simp at this
        exact this hnew
      · obtain ⟨s, hops⟩ := createNewHashtagVertices_ops_shape _ _ _ _ _ h
        simp at hops
      · obtain ⟨k0, vk0, ms0, idx0, hops⟩ :=
          createNewHasHashtagEdges_ops_shape _ _ _ _ _ _ _ h
        simp at hops
    · intro vk ms idx h
      rcases h with (h | h) | h
      · obtain ⟨k0, e0, hops, _⟩ := deleteRemovedEdges_ops_shape _ _ _ h
        simp at hops
      · obtain ⟨s, hops⟩ := createNewHashtagVertices_ops_shape _ _ _ _ _ h
        simp at hops
      · have hk := (hedg.2 k).mp ⟨vk, ms, idx, h⟩
        have := (List.mem_filter.mp hk).2
        simp at this
        exact this hcur

theorem updateConnectedHashtags_edge_diff_witness :
    (updateConnectedHashtags (fun s => s) (fun a hk _ _ => a ++ "|" ++ hk)
      (fun s => some s) (fun _ _ _ => true) "audios/7" [("h1", "e1")]
      [("tag1", 0, MentionSource.messageText)]).2 = true :=
  (updateConnectedHashtags_edge_diff (fun s => s) (fun a hk _ _ => a ++ "|" ++ hk)
    (fun s => some s) (fun _ _ _ => true) "audios/7" [("h1", "e1")]
    [("tag1", 0, MentionSource.messageText)]
    (by decide) (fun _ => rfl) (fun _ _ _ => rfl)).1

/-- C9: `_update_connected_hashtags` never deletes a `Hashtag` vertex —
hashtag vertices whose keys are in the current set but not in the desired set
are left in place — and every deletion it performs is of a `HasHashtag` edge
that is currently connected to the audio vertex. -/
theorem updateConnectedHashtags_never_deletes_hashtag_vertex
    (pk : String → String) (ekf : String → String → MentionSource → Nat → String)
    (cv : String → Option String) (ce : String → MentionSource → Nat → Bool)
    (aKey : String) (current : List (String × String))
    (hashtags : List (String × Nat × MentionSource)) :
    ∀ op ∈ (updateConnectedHashtags pk ekf cv ce aKey current hashtags).1,
      (∀ vk, op ≠ GraphOp.deleteHashtagVertex vk) ∧
      (∀ e, op = GraphOp.deleteHasHashtagEdge e → ∃ p ∈ current, p.2 = e) := by
  have hdelcase : ∀ (L : List String) op,
      op ∈ (deleteRemovedEdges (currentEdgesMapping current) L).1 →
      (∀ vk, op ≠ GraphOp.deleteHashtagVertex vk) ∧
      (∀ e, op = GraphOp.deleteHasHashtagEdge e → ∃ p ∈ current, p.2 = e) := by
    intro L op hop
    obtain ⟨k0, e0, hops, hmap⟩ := deleteRemovedEdges_ops_shape _ _ _ hop
    subst hops
    refine ⟨by simp, ?_⟩
    intro e he
    have he0 : e0 = e := by simpa using he
    subst he0
    exact currentEdgesMapping_some current k0 e0 hmap
  intro op hop
  simp only [updateConnectedHashtags] at hop
  split at hop
  · simp only [List.mem_append] at hop
    rcases hop with (hop | hop) | hop
    · exact hdelcase _ op hop
    · obtain ⟨s, hops⟩ := createNewHashtagVertices_ops_shape _ _ _ _ _ hop
      subst hops
      refine ⟨by simp, ?_⟩
      intro e he
      simp at he
    · obtain ⟨k0, vk0, ms0, idx0, hops⟩ :=
        createNewHasHashtagEdges_ops_shape _ _ _ _ _ _ _ hop
      subst hops
      refine ⟨by simp, ?_⟩
      intro e he
      simp at he
  · exact hdelcase _ op hop

theorem updateConnectedHashtags_never_deletes_hashtag_vertex_witness :
    (∀ vk, GraphOp.deleteHasHashtagEdge "e1" ≠ GraphOp.deleteHashtagVertex vk) ∧
    (∀ e, GraphOp.deleteHasHashtagEdge "e1" = GraphOp.deleteHasHashtagEdge e →
      ∃ p ∈ [("h1", "e1")], p.2 = e) :=
  updateConnectedHashtags_never_deletes_hashtag_vertex (fun s => s)
    (fun a hk _ _ => a ++ "|" ++ hk) (fun s => some s) (fun _ _ _ => true)
    "audios/7" [("h1", "e1")] [] (GraphOp.deleteHasHashtagEdge "e1") (by decide)

end Tase
